import Mathlib

/-
  Verification development for the STM32 I2C master driver
  (cpu/stm32l4/periph/i2c.c) of the RIOT fork.

  The driver is embedded shallowly:
  * machine integers are Nat with explicit truncation modulo 2^32
    (or 2^16 for the uint16_t local in the reset routine);
  * the hardware register block is a structure of register values;
  * the polling loops of the start-condition phase are modelled as
    fuel-indexed recursions over environment schedules (the values the
    status flags and the microsecond clock take at each poll);
  * the straight-line register accesses of the read/write transfer
    paths are modelled as explicit event traces, so that ordering
    properties (STOP after BTF, NACK before STOP) and the byte store
    pattern can be stated directly.
-/

namespace Stm32I2c

/-! ## Machine-arithmetic helpers and register bit masks -/

/-- NSEC_PER_SEC from the source: nanoseconds per second. -/
def NSEC_PER_SEC : Nat := 1000000000

/-- Decrement with uint32 wrap-around: the C expression x - 1 on uint32_t. -/
def u32dec (x : Nat) : Nat := (x + 4294967295) % 4294967296

/-- Subtraction with uint32 wrap-around: the C expression a - b on uint32_t. -/
def u32sub (a b : Nat) : Nat :=
  ((a % 4294967296) + (4294967296 - b % 4294967296)) % 4294967296

/-- Bitwise complement on uint32: the C expression ~m. -/
def cnot (m : Nat) : Nat := 4294967295 ^^^ m

/- CR1 bit masks (F1-family bits used by the transfer paths together with
   the L4-family bits used by the init path, as in the mixed source). -/
def I2C_CR1_PE : Nat := 1
def I2C_CR1_START : Nat := 256
def I2C_CR1_STOP : Nat := 512
def I2C_CR1_ACK : Nat := 1024
def I2C_CR1_POS : Nat := 2048
def I2C_CR1_ANFOFF : Nat := 4096
def I2C_CR1_SWRST : Nat := 32768
def I2C_CR1_NOSTRETCH : Nat := 131072

/- SR1 status bit masks (F1 family). -/
def I2C_SR1_SB : Nat := 1
def I2C_SR1_ADDR : Nat := 2
def I2C_SR1_BTF : Nat := 4
def I2C_SR1_RXNE : Nat := 64

/- ISR status bit masks (L4 family), used by the error interrupt handler
   and the write path. -/
def I2C_ISR_TXE : Nat := 1
def I2C_ISR_TC : Nat := 64
def I2C_ISR_NACKF : Nat := 16
def I2C_ISR_BERR : Nat := 256
def I2C_ISR_ARLO : Nat := 512
def I2C_ISR_OVR : Nat := 1024
def I2C_ISR_PECERR : Nat := 2048
def I2C_ISR_TIMEOUT : Nat := 4096
def I2C_ISR_ALERT : Nat := 8192

/- CR2 bit mask (L4 family). -/
def I2C_CR2_STOP : Nat := 16384

/- Direction flags of the RIOT i2c API. -/
def I2C_FLAG_WRITE : Nat := 0
def I2C_FLAG_READ : Nat := 1

/-! ## Controller register block -/

/-- The controller registers touched by the initializer and the reset
routine: CR1, the L4 timing register TIMINGR, the F1 clock-control
register CCR (never written by this driver, but read by the reset
routine), and the own-address register OAR1. -/
structure I2CRegs where
  CR1 : Nat
  TIMINGR : Nat
  CCR : Nat
  OAR1 : Nat
deriving Repr, DecidableEq

/-- Embedding of the static helper _i2c_init (i2c.c lines 180-203):
disable the device, set the analog-filter line (the source ORs CR1 with
the complement of ANFOFF, faithfully reproduced), write the timing
register, clear NOSTRETCH, zero OAR1, re-enable the device. -/
def _i2c_init (r : I2CRegs) (timing : Nat) : I2CRegs :=
  let r1 := { r with CR1 := r.CR1 &&& cnot I2C_CR1_PE }
  let r2 := { r1 with CR1 := r1.CR1 ||| cnot I2C_CR1_ANFOFF }
  let r3 := { r2 with TIMINGR := timing }
  let r4 := { r3 with CR1 := r3.CR1 &&& cnot I2C_CR1_NOSTRETCH }
  let r5 := { r4 with OAR1 := 0 }
  { r5 with CR1 := r5.CR1 ||| I2C_CR1_PE }

/-- Embedding of the static helper _i2c_reset (i2c.c lines 457-466):
read CCR into a uint16_t local, pulse the software-reset bit, then
re-run _i2c_init with the saved CCR value as the timing argument. -/
def _i2c_reset (r : I2CRegs) : I2CRegs :=
  let ccr := r.CCR % 65536
  let r1 := { r with CR1 := r.CR1 ||| I2C_CR1_SWRST }
  let r2 := { r1 with CR1 := r1.CR1 &&& cnot I2C_CR1_SWRST }
  _i2c_init r2 ccr

/-! ## Bus initializer: prescaler search (i2c_init_master) -/

/-- The four derived tick counts of one loop iteration of i2c_init_master
(i2c.c lines 146-151) for prescaler p: SCL-high, SCL-low, data-hold,
data-setup. Division by zero follows the Lean convention x / 0 = 0;
the theorems below restrict the clock so that no divisor is zero. -/
def ticks (clk p h l hd su : Nat) : Nat × Nat × Nat × Nat :=
  let t_presc := clk / p
  let ns_presc := NSEC_PER_SEC / t_presc
  (h / ns_presc, l / ns_presc, hd / ns_presc, su / ns_presc)

/-- The field-width acceptance test of one loop iteration
(i2c.c lines 153-156), with the uint32 wrap of the two subtractions. -/
def ok (clk h l hd su p : Nat) : Bool :=
  let t := ticks clk p h l hd su
  !(u32dec t.1 > 255 || u32dec t.2.1 > 255 || t.2.2.1 > 15 || u32dec t.2.2.2 > 15)

/-- The packed timing-register value prepared on acceptance
(i2c.c line 163), each shifted field truncated to uint32 as in C. -/
def timingOf (clk h l hd su p : Nat) : Nat :=
  let t := ticks clk p h l hd su
  ((u32dec p <<< 28) % 4294967296) ||| ((u32dec t.2.2.2 <<< 20) % 4294967296) |||
    ((t.2.2.1 <<< 16) % 4294967296) ||| ((u32dec t.1 <<< 8) % 4294967296) ||| u32dec t.2.1

/-- The do-while prescaler loop of i2c_init_master (i2c.c lines 145-166):
starting from prescaler p with the given number of remaining candidates,
return the first accepted prescaler, or none when the range is
exhausted (loop guard presc < 16). -/
def findPrescAux (clk h l hd su : Nat) : Nat → Nat → Option Nat
  | 0, _ => none
  | fuel + 1, p => if ok clk h l hd su p then some p else findPrescAux clk h l hd su fuel (p + 1)

/-- The i2c_speed_t argument: the switch in i2c_init_master handles
NORMAL and FAST and rejects everything else. -/
inductive Speed where
  | normal
  | fast
  | other
deriving Repr, DecidableEq

/-- The timing minimums selected by the speed switch
(i2c.c lines 125-142): high, low, hold, setup in nanoseconds. -/
def speedParams : Speed → Option (Nat × Nat × Nat × Nat)
  | .normal => some (4000, 4700, 500, 1250)
  | .fast => some (600, 1300, 375, 500)
  | .other => none

/-- The tail of i2c_init_master after the speed switch has produced the
four timing minimums: the prescaler search (i2c.c lines 144-171, return
code 2 on exhaustion, guard presc >= 16) and on success the _i2c_init
call with the packed timing value (lines 174-177, status 0). -/
def i2c_init_timing (clk h l hd su : Nat) (r1 : I2CRegs) : Int × I2CRegs :=
  (findPrescAux clk h l hd su 15 1).elim (2, r1)
    (fun p => (0, _i2c_init r1 (timingOf clk h l hd su p)))

/-- Embedding of i2c_init_master (i2c.c lines 88-178): bus-id check,
device disable (line 109, before the speed switch), speed switch,
prescaler search, and on success the _i2c_init call with the packed
timing value. The GPIO/clock-gate/NVIC side effects are outside the
register-block state. Returns the C status and the register block. -/
def i2c_init_master (dev numof : Nat) (speed : Speed) (clk : Nat) (r : I2CRegs) :
    Int × I2CRegs :=
  if numof ≤ dev then (-1, r)
  else
    let r1 := { r with CR1 := r.CR1 &&& cnot I2C_CR1_PE }
    match speedParams speed with
    | none => (-2, r1)
    | some (h, l, hd, su) => i2c_init_timing clk h l hd su r1

/-! ## Event traces of the transfer paths

The read/write paths of the driver are straight-line register accesses
interleaved with polling waits. A successful run is modelled as the
list of accesses it performs, in program order. -/

/-- One register access of a transfer path. -/
inductive Ev where
  /-- CR1 |= m -/
  | cr1Or (m : Nat)
  /-- CR1 &= ~m -/
  | cr1And (m : Nat)
  /-- read of SR1 (first half of _clear_addr) -/
  | readSR1
  /-- read of SR2 (second half of _clear_addr) -/
  | readSR2
  /-- my_data[i] = DR, the byte b supplied by the peer -/
  | rdDR (i : Nat) (b : Nat)
  /-- DR = v (address byte) -/
  | writeDR (v : Nat)
  /-- poll of SR1 until the masked flag is observed set -/
  | waitSR1set (m : Nat)
  /-- poll of CR1 until the hardware clears the masked bit -/
  | waitCR1clear (m : Nat)
  /-- irq_disable() -/
  | irqDis
  /-- irq_restore(state) -/
  | irqRes
  /-- i2c_bus_error = 0 -/
  | clrErr
  /-- TXDR = v (write path) -/
  | wrTXDR (v : Nat)
  /-- poll of ISR until the masked flag is observed set (write path) -/
  | waitISRset (m : Nat)
  /-- CR2 |= m (write path stop condition) -/
  | cr2Or (m : Nat)
deriving Repr, DecidableEq

/-- Effect of one event on the CR1 register value: the two read-modify-
write forms update it, and a successful wait for a hardware-cleared bit
ends with that bit observed clear. -/
def applyEv (c : Nat) : Ev → Nat
  | .cr1Or m => c ||| m
  | .cr1And m => c &&& cnot m
  | .waitCR1clear m => c &&& cnot m
  | _ => c

/-- CR1 value after a trace, starting from c. -/
def applyTrace (c : Nat) (tr : List Ev) : Nat := tr.foldl applyEv c

/-- The byte stores a trace performs, as (buffer index, byte) pairs in
program order. -/
def writesOf : List Ev → List (Nat × Nat)
  | [] => []
  | .rdDR i b :: rest => (i, b) :: writesOf rest
  | _ :: rest => writesOf rest

/-- An event that asserts the STOP condition (sets the STOP bit of CR1). -/
def isStopAssert : Ev → Bool
  | .cr1Or m => m &&& I2C_CR1_STOP != 0
  | _ => false

/-- An event that clears the ACK bit of CR1. -/
def isAckClear : Ev → Bool
  | .cr1And m => m &&& I2C_CR1_ACK != 0
  | _ => false

/-- The observation of the byte-transfer-complete flag. -/
def isBtfWait : Ev → Bool
  | .waitSR1set m => m == I2C_SR1_BTF
  | _ => false

/-- The first access of _clear_addr (the SR1 read that begins clearing
the address-pending flag). -/
def isAddrClear : Ev → Bool
  | .readSR1 => true
  | _ => false

/-- Trace of a successful _start (i2c.c lines 482-505) with the busy
flag initially clear: assert START, wait for SB, zero the fault
variable, write the shifted address with the direction flag, and
observe ADDR set. -/
def start_ok_tr (address rw : Nat) : List Ev :=
  [Ev.cr1Or I2C_CR1_START, Ev.waitSR1set I2C_SR1_SB, Ev.clrErr,
   Ev.writeDR ((address <<< 1) ||| rw), Ev.waitSR1set I2C_SR1_ADDR]

/-- Trace of _clear_addr (i2c.c lines 508-513). -/
def clear_addr_tr : List Ev := [Ev.readSR1, Ev.readSR2]

/-- Trace of the 1-byte read path of i2c_read_bytes
(i2c.c lines 240-268) after a successful start. -/
def read1_tr (address : Nat) (s : Nat → Nat) : List Ev :=
  start_ok_tr address I2C_FLAG_READ ++
  [Ev.cr1And I2C_CR1_ACK, Ev.irqDis] ++ clear_addr_tr ++
  [Ev.cr1Or I2C_CR1_STOP, Ev.irqRes,
   Ev.waitSR1set I2C_SR1_RXNE,
   Ev.rdDR 0 (s 0),
   Ev.waitCR1clear I2C_CR1_STOP,
   Ev.cr1Or I2C_CR1_ACK]

/-- Trace of the 2-byte read path of i2c_read_bytes
(i2c.c lines 270-304) after a successful start. -/
def read2_tr (address : Nat) (s : Nat → Nat) : List Ev :=
  start_ok_tr address I2C_FLAG_READ ++
  [Ev.cr1Or (I2C_CR1_POS ||| I2C_CR1_ACK), Ev.irqDis] ++ clear_addr_tr ++
  [Ev.cr1And I2C_CR1_ACK, Ev.irqRes,
   Ev.waitSR1set I2C_SR1_BTF,
   Ev.irqDis, Ev.cr1Or I2C_CR1_STOP, Ev.rdDR 0 (s 0), Ev.irqRes,
   Ev.rdDR 1 (s 1),
   Ev.waitCR1clear I2C_CR1_STOP,
   Ev.cr1And I2C_CR1_POS, Ev.cr1Or I2C_CR1_ACK]

/-- The RXNE streaming loop of the default read path
(i2c.c lines 314-321): m remaining iterations, next buffer index i. -/
def loopN (s : Nat → Nat) : Nat → Nat → List Ev
  | _, 0 => []
  | i, m + 1 => Ev.waitSR1set I2C_SR1_RXNE :: Ev.rdDR i (s i) :: loopN s (i + 1) m

/-- The three-byte tail of the default read path (i2c.c lines 323-351):
wait for BTF, disable ACK, read byte i under disabled interrupts while
asserting STOP, read byte i+1, wait RXNE, read byte i+2, wait for the
hardware to clear STOP, clear POS, re-enable ACK. -/
def tail3 (s : Nat → Nat) (i : Nat) : List Ev :=
  [Ev.waitSR1set I2C_SR1_BTF, Ev.cr1And I2C_CR1_ACK, Ev.irqDis,
   Ev.rdDR i (s i), Ev.cr1Or I2C_CR1_STOP, Ev.irqRes,
   Ev.rdDR (i + 1) (s (i + 1)),
   Ev.waitSR1set I2C_SR1_RXNE,
   Ev.rdDR (i + 2) (s (i + 2)),
   Ev.waitCR1clear I2C_CR1_STOP,
   Ev.cr1And I2C_CR1_POS, Ev.cr1Or I2C_CR1_ACK]

/-- Trace of the default (switch default, any length other than 1/2)
read path of i2c_read_bytes (i2c.c lines 306-351) after a successful
start: the int loop bound length - 3 gives max(0, length - 3) streamed
bytes, then the three-byte tail. -/
def readN_tr (address : Nat) (s : Nat → Nat) (length : Int) : List Ev :=
  start_ok_tr address I2C_FLAG_READ ++ clear_addr_tr ++
    loopN s 0 (length - 3).toNat ++ tail3 s (length - 3).toNat

/-- Embedding of i2c_read_bytes (i2c.c lines 228-355): bus-id check,
switch on the int length with cases 1, 2 and default; each case first
runs _start (its result is the sres argument, computed by the
start-phase model below) and propagates a negative result unchanged;
a completed case returns the requested length. The s argument is the
byte stream supplied by the peer, in issuance order. -/
def i2c_read_bytes (dev numof address : Nat) (sres : Int) (s : Nat → Nat)
    (length : Int) : Int × List Ev :=
  if numof ≤ dev then (-1, [])
  else if length = 1 then
    if sres < 0 then (sres, []) else (length, read1_tr address s)
  else if length = 2 then
    if sres < 0 then (sres, []) else (length, read2_tr address s)
  else
    if sres < 0 then (sres, []) else (length, readN_tr address s length)

/-- The transmit loop of _write (i2c.c lines 515-529). -/
def wrLoop (d : Nat → Nat) : Nat → Nat → List Ev
  | _, 0 => []
  | i, m + 1 => Ev.wrTXDR (d i) :: Ev.waitISRset I2C_ISR_TXE :: wrLoop d (i + 1) m

/-- Trace of _stop (i2c.c lines 531-540). -/
def stop_tr : List Ev := [Ev.waitISRset I2C_ISR_TC, Ev.cr2Or I2C_CR2_STOP]

/-- Embedding of i2c_write_bytes (i2c.c lines 389-411): bus-id check,
_start (propagating a negative result unchanged), _clear_addr, the
transmit loop, _stop; returns the requested length on completion. -/
def i2c_write_bytes (dev numof address : Nat) (sres : Int) (d : Nat → Nat)
    (length : Int) : Int × List Ev :=
  if numof ≤ dev then (-1, [])
  else if sres < 0 then (sres, [])
  else (length,
    start_ok_tr address I2C_FLAG_WRITE ++ clear_addr_tr ++
      wrLoop d 0 length.toNat ++ stop_tr)

/-! ## Start-condition phase: busy wait and address wait -/

/-- The bus-busy wait of _start (i2c.c lines 473-480). Environment
schedules: busy j is the BUSY flag at the j-th loop-condition check,
now k is the k-th result of xtimer_now_usec (call 0 is time_now, call
k is the check inside iteration k). Fuel bounds the number of observed
iterations; the result is (number of _i2c_reset invocations so far,
whether the wait has exited). The 100 ms bound is 100000 us with
uint32 wrap-around on the clock difference, as in the source. -/
def busyPhaseAux (busy : Nat → Bool) (now : Nat → Nat) : Nat → Nat → Nat → Nat × Bool
  | 0, _, resets => (resets, false)
  | fuel + 1, j, resets =>
    if busy j then
      busyPhaseAux busy now fuel (j + 1)
        (if u32sub (now (j + 1)) (now 0) > 100000 then resets + 1 else resets)
    else (resets, true)

/-- The ADDR wait of _start (i2c.c lines 496-505). addrFlag j is the
ADDR flag at the j-th condition check, err j the value of the volatile
i2c_bus_error there. Result: some (status, resets performed in this
phase), or none when the fuel runs out with the wait still spinning.
On a fault the source calls _i2c_reset once and returns -1; on ADDR it
returns 0 without resetting. -/
def addrPhase (addrFlag : Nat → Bool) (err : Nat → Int) : Nat → Nat → Option (Int × Nat)
  | 0, _ => none
  | fuel + 1, j =>
    if addrFlag j then some (0, 0)
    else if err j != 0 then some (-1, 1)
    else addrPhase addrFlag err fuel (j + 1)

/-! ## Error interrupt handler -/

/-- Embedding of _i2c_irq (i2c.c lines 542-576): the ISR value is read
once into state; each of the seven fault bits present overwrites the
fault variable with its code, in program order (last write wins), and
the NACKF/ARLO branches clear their ISR bits. Returns (new fault
variable, new ISR value). -/
def _i2c_irq (isr0 : Nat) (e0 : Int) : Int × Nat :=
  let state := isr0
  let e1 := if state &&& I2C_ISR_OVR != 0 then (-1 : Int) else e0
  let e2 := if state &&& I2C_ISR_NACKF != 0 then (-2 : Int) else e1
  let p2 := if state &&& I2C_ISR_NACKF != 0 then isr0 &&& cnot I2C_ISR_NACKF else isr0
  let e3 := if state &&& I2C_ISR_ARLO != 0 then (-3 : Int) else e2
  let p3 := if state &&& I2C_ISR_ARLO != 0 then p2 &&& cnot I2C_ISR_ARLO else p2
  let e4 := if state &&& I2C_ISR_BERR != 0 then (-4 : Int) else e3
  let e5 := if state &&& I2C_ISR_PECERR != 0 then (-5 : Int) else e4
  let e6 := if state &&& I2C_ISR_TIMEOUT != 0 then (-6 : Int) else e5
  let e7 := if state &&& I2C_ISR_ALERT != 0 then (-7 : Int) else e6
  (e7, p3)

/-- The seven hardware fault bits, in the order the handler tests them. -/
def sevenFaults : List Nat :=
  [I2C_ISR_OVR, I2C_ISR_NACKF, I2C_ISR_ARLO, I2C_ISR_BERR,
   I2C_ISR_PECERR, I2C_ISR_TIMEOUT, I2C_ISR_ALERT]

/-- The fault code the handler records for a given single fault bit. -/
def faultCodeOf (b : Nat) : Int :=
  if b = I2C_ISR_OVR then -1
  else if b = I2C_ISR_NACKF then -2
  else if b = I2C_ISR_ARLO then -3
  else if b = I2C_ISR_BERR then -4
  else if b = I2C_ISR_PECERR then -5
  else if b = I2C_ISR_TIMEOUT then -6
  else if b = I2C_ISR_ALERT then -7
  else 0

/-! ## Helper lemmas -/

/-- Exhaustion of the prescaler loop: when every candidate in the
remaining range is rejected, the search returns none. -/
theorem fpa_eq_none (clk h l hd su : Nat) :
    ∀ fuel p, (∀ q, p ≤ q → q < p + fuel → ok clk h l hd su q = false) →
      findPrescAux clk h l hd su fuel p = none := by
  intro fuel
  induction fuel with
  | zero => intro p _; rfl
  | succ n ih =>
    intro p hall
    have hp : ok clk h l hd su p = false := hall p (Nat.le_refl p) (by omega)
    simp only [findPrescAux, hp, Bool.false_eq_true, if_false]
    exact ih (p + 1) (fun q h1 h2 => hall q (by omega) (by omega))

/-- Soundness of the prescaler loop: a returned prescaler is accepted,
lies in the searched range, and every earlier candidate was rejected. -/
theorem fpa_spec (clk h l hd su : Nat) :
    ∀ fuel p q, findPrescAux clk h l hd su fuel p = some q →
      ok clk h l hd su q = true ∧ p ≤ q ∧ q < p + fuel ∧
      ∀ s, p ≤ s → s < q → ok clk h l hd su s = false := by
  intro fuel
  induction fuel with
  | zero => intro p q hq; simp [findPrescAux] at hq
  | succ n ih =>
    intro p q hq
    by_cases hp : ok clk h l hd su p = true
    · simp only [findPrescAux, hp, if_true, Option.some.injEq] at hq
      subst hq
      exact ⟨hp, Nat.le_refl p, by omega, fun s h1 h2 => by omega⟩
    · simp only [findPrescAux, hp, if_false] at hq
      obtain ⟨hok, hle, hlt, hmin⟩ := ih (p + 1) q hq
      refine ⟨hok, by omega, by omega, fun s h1 h2 => ?_⟩
      by_cases hsp : s = p
      · subst hsp; exact Bool.eq_false_iff.mpr hp
      · exact hmin s (by omega) h2

/-- Completeness of the prescaler loop: if some candidate in the range
is accepted, the search succeeds. -/
theorem fpa_isSome (clk h l hd su : Nat) :
    ∀ fuel p q, p ≤ q → q < p + fuel → ok clk h l hd su q = true →
      (findPrescAux clk h l hd su fuel p).isSome = true := by
  intro fuel
  induction fuel with
  | zero => intro p q h1 h2 _; omega
  | succ n ih =>
    intro p q h1 h2 hok
    by_cases hp : ok clk h l hd su p = true
    · simp [findPrescAux, hp]
    · simp only [findPrescAux, hp, if_false]
      by_cases hqp : q = p
      · subst hqp; exact absurd hok hp
      · exact ih (p + 1) q (by omega) (by omega) hok

/-- Reduction of i2c_init_master past the bus-id check and the speed
switch, for a valid bus id and a recognized speed. -/
theorem init_master_eq (dev numof clk : Nat) (speed : Speed) (h l hd su : Nat)
    (r : I2CRegs) (hdev : dev < numof)
    (hsp : speedParams speed = some (h, l, hd, su)) :
    i2c_init_master dev numof speed clk r
      = i2c_init_timing clk h l hd su { r with CR1 := r.CR1 &&& cnot I2C_CR1_PE } := by
  rw [i2c_init_master, if_neg (by omega : ¬ (numof ≤ dev)), hsp]

/-- Reduction of the initializer tail when the prescaler range is
exhausted. -/
theorem timing_none (clk h l hd su : Nat) (r1 : I2CRegs)
    (hnone : findPrescAux clk h l hd su 15 1 = none) :
    i2c_init_timing clk h l hd su r1 = (2, r1) := by
  unfold i2c_init_timing
  rw [hnone]
  rfl

/-- Reduction of the initializer tail when a prescaler is accepted. -/
theorem timing_some (clk h l hd su : Nat) (r1 : I2CRegs) (p : Nat)
    (hp : findPrescAux clk h l hd su 15 1 = some p) :
    i2c_init_timing clk h l hd su r1 = (0, _i2c_init r1 (timingOf clk h l hd su p)) := by
  unfold i2c_init_timing
  rw [hp]
  rfl

/-- The byte stores of a concatenated trace. -/
theorem writesOf_append (a b : List Ev) :
    writesOf (a ++ b) = writesOf a ++ writesOf b := by
  induction a with
  | nil => rfl
  | cons x xs ih =>
    cases x <;> simp [writesOf, ih]

/-- The streaming loop of the default read path stores the stream bytes
at consecutive indices starting from i. -/
theorem writesOf_loopN (s : Nat → Nat) :
    ∀ m i, writesOf (loopN s i m) = (List.range m).map (fun k => (i + k, s (i + k))) := by
  intro m
  induction m with
  | zero => intro i; rfl
  | succ n ih =>
    intro i
    have htail : List.map (fun k => (i + 1 + k, s (i + 1 + k))) (List.range n)
        = List.map ((fun k => (i + k, s (i + k))) ∘ Nat.succ) (List.range n) := by
      apply List.map_congr_left
      intro k _
      have hik : i + 1 + k = i + (k + 1) := by omega
      simp [Function.comp, hik, Nat.succ_eq_add_one]
    rw [List.range_succ_eq_map, List.map_cons, List.map_map, ← htail]
    simp [loopN, writesOf, ih (i + 1)]

/-- The streaming loop never observes the byte-transfer-complete flag. -/
theorem loopN_no_btf (s : Nat → Nat) :
    ∀ m i, ((loopN s i m).all fun e => !(isBtfWait e)) = true := by
  intro m
  induction m with
  | zero => intro i; rfl
  | succ n ih =>
    intro i
    simp only [loopN, List.all_cons, Bool.and_eq_true]
    exact ⟨by decide, rfl, ih (i + 1)⟩

/-- dropWhile over a concatenation whose first part satisfies the
predicate everywhere. -/
theorem dropWhile_append_all (p : Ev → Bool) (l r : List Ev) (h : l.all p = true) :
    (l ++ r).dropWhile p = r.dropWhile p :=
  List.dropWhile_append_of_pos (fun a ha => List.all_eq_true.mp h a ha)

/-- The ADDR wait of _start can only deliver 0 (address acknowledged,
no reset) or -1 together with exactly one bus reset. -/
theorem addrPhase_some (addrFlag : Nat → Bool) (err : Nat → Int) :
    ∀ fuel j r n, addrPhase addrFlag err fuel j = some (r, n) →
      r = 0 ∨ (r = -1 ∧ n = 1) := by
  intro fuel
  induction fuel with
  | zero => intro j r n hsome; simp [addrPhase] at hsome
  | succ m ih =>
    intro j r n hsome
    by_cases ha : addrFlag j = true
    · simp only [addrPhase, ha, if_true, Option.some.injEq, Prod.mk.injEq] at hsome
      exact Or.inl hsome.1.symm
    · simp only [addrPhase, ha, Bool.false_eq_true, if_false] at hsome
      by_cases he : (err j != 0) = true
      · simp only [he, if_true, Option.some.injEq, Prod.mk.injEq] at hsome
        exact Or.inr ⟨hsome.1.symm, hsome.2.symm⟩
      · simp only [he, Bool.false_eq_true, if_false] at hsome
        exact ih (j + 1) r n hsome

/-! ## Claim theorems -/

/-- C1 (counterexample): under a schedule where the bus-busy flag never
clears and every poll happens after the 100 ms bound, already after two
poll iterations the bus reset has been invoked twice — not exactly once
— and the busy wait of _start has not exited, so no status (negative or
otherwise) has been returned to the caller. -/
theorem start_busy_reset_once_counterexample :
    (busyPhaseAux (fun _ => true) (fun i => if i = 0 then 0 else 200000) 2 0 0).1 = 2
    ∧ (busyPhaseAux (fun _ => true) (fun i => if i = 0 then 0 else 200000) 2 0 0).2 = false
    ∧ (busyPhaseAux (fun _ => true) (fun i => if i = 0 then 0 else 200000) 2 0 0).1 ≠ 1 :=
  ⟨by decide, by decide, by decide⟩

/-- C1 (amended): if the bus-busy flag never clears and every poll after
the first happens past the 100 ms bound, the busy wait of _start never
exits — _start does not return, so no negative status reaches the
caller — and the bus reset is invoked once per poll iteration,
unboundedly often rather than exactly once. -/
theorem start_busy_never_clears_loops (busy : Nat → Bool) (now : Nat → Nat)
    (fuel j resets : Nat) (hbusy : ∀ k, busy k = true)
    (htime : ∀ k, u32sub (now (k + 1)) (now 0) > 100000) :
    busyPhaseAux busy now fuel j resets = (resets + fuel, false) := by
  induction fuel generalizing j resets with
  | zero => simp [busyPhaseAux]
  | succ n ih =>
    simp only [busyPhaseAux, hbusy j, if_pos, htime j, ih]
    have hc : resets + 1 + n = resets + (n + 1) := by omega
    rw [hc]

/-- C1 (witness): the amended statement at the concrete always-busy
schedule with a clock 200 ms past the start. -/
theorem start_busy_never_clears_loops_witness :
    busyPhaseAux (fun _ => true) (fun i => if i = 0 then 0 else 200000) 5 0 0
      = (0 + 5, false) :=
  start_busy_never_clears_loops (fun _ => true) (fun i => if i = 0 then 0 else 200000)
    5 0 0 (fun k => rfl) (fun k => by simp [u32sub])

/-- C2: the bus reset does NOT preserve the timing configuration. On
the register state produced by a successful 8 MHz normal-mode
initialization, TIMINGR holds 0x941F24; _i2c_reset saves the CCR
register (truncated to 16 bits, and never written by this driver)
instead of TIMINGR and re-initializes with it, leaving TIMINGR = 0. -/
theorem i2c_reset_clobbers_timing :
    ((i2c_init_master 0 1 Speed.normal 8000000 ⟨0, 0, 0, 0⟩).2).TIMINGR = 9707300
    ∧ (_i2c_reset (i2c_init_master 0 1 Speed.normal 8000000 ⟨0, 0, 0, 0⟩).2).TIMINGR = 0
    ∧ (_i2c_reset (i2c_init_master 0 1 Speed.normal 8000000 ⟨0, 0, 0, 0⟩).2).TIMINGR
        ≠ ((i2c_init_master 0 1 Speed.normal 8000000 ⟨0, 0, 0, 0⟩).2).TIMINGR :=
  ⟨by decide, by decide, by decide⟩

/-- C3 (counterexample): with a 1 GHz peripheral clock and normal speed
every prescaler 1..15 is rejected, and i2c_init_master returns the
POSITIVE status 2, not a small negative integer as claimed. -/
theorem init_master_exhausted_positive_counterexample :
    ((List.range 15).all fun i => !(ok 1000000000 4000 4700 500 1250 (i + 1))) = true
    ∧ (i2c_init_master 0 1 Speed.normal 1000000000 ⟨0, 0, 0, 0⟩).1 = 2
    ∧ ¬ ((i2c_init_master 0 1 Speed.normal 1000000000 ⟨0, 0, 0, 0⟩).1 < 0) :=
  ⟨by decide, by decide, by decide⟩

/-- C3 (amended): for every valid bus id, recognized speed class and
peripheral clock for which every candidate prescaler 1..15 violates
some field-width bound, i2c_init_master returns the nonzero status 2
(a positive value, deviating from the negative-status convention) and
leaves the timing register unmodified. -/
theorem init_master_exhausted_returns_two (dev numof clk : Nat) (speed : Speed)
    (h l hd su : Nat) (r : I2CRegs) (hdev : dev < numof)
    (hsp : speedParams speed = some (h, l, hd, su))
    (hall : ((List.range 15).all fun i => !(ok clk h l hd su (i + 1))) = true) :
    (i2c_init_master dev numof speed clk r).1 = 2
    ∧ ¬ ((i2c_init_master dev numof speed clk r).1 < 0)
    ∧ ((i2c_init_master dev numof speed clk r).2).TIMINGR = r.TIMINGR := by
  have hall2 : ∀ q, 1 ≤ q → q < 1 + 15 → ok clk h l hd su q = false := by
    intro q h1 h2
    obtain ⟨k, rfl⟩ : ∃ k, q = k + 1 := ⟨q - 1, by omega⟩
    have hb := List.all_eq_true.mp hall k (List.mem_range.mpr (by omega))
    simpa using hb
  have hnone : findPrescAux clk h l hd su 15 1 = none :=
    fpa_eq_none clk h l hd su 15 1 hall2
  rw [init_master_eq dev numof clk speed h l hd su r hdev hsp,
    timing_none clk h l hd su _ hnone]
  refine ⟨rfl, ?_, rfl⟩
  show ¬ (2 : Int) < 0
  decide

/-- C3 (witness): the amended statement at bus 0 of 1, normal speed,
1 GHz clock, on a register block whose TIMINGR holds 11. -/
theorem init_master_exhausted_returns_two_witness :
    (0 : Nat) < 1
    ∧ speedParams Speed.normal = some (4000, 4700, 500, 1250)
    ∧ ((List.range 15).all fun i => !(ok 1000000000 4000 4700 500 1250 (i + 1))) = true
    ∧ (i2c_init_master 0 1 Speed.normal 1000000000 ⟨7, 11, 13, 17⟩).1 = 2
    ∧ ((i2c_init_master 0 1 Speed.normal 1000000000 ⟨7, 11, 13, 17⟩).2).TIMINGR = 11 := by
  have H := init_master_exhausted_returns_two 0 1 1000000000 Speed.normal
    4000 4700 500 1250 ⟨7, 11, 13, 17⟩ (by decide) rfl (by decide)
  exact ⟨by decide, rfl, by decide, H.1, by rw [H.2.2]⟩

/-- C4: for every valid bus id, recognized speed class and peripheral
clock for which some prescaler 1..15 makes all four derived tick counts
satisfy their field-width bounds, i2c_init_master accepts the smallest
such prescaler (the search result is accepted, minimal, and its packed
timing value is what lands in TIMINGR) and returns success; in
particular, for bus 0, normal speed and an 8 MHz clock it chooses
prescaler 1 and succeeds. -/
theorem init_master_accepts_least_prescaler (dev numof clk : Nat) (speed : Speed)
    (h l hd su : Nat) (r : I2CRegs) (p : Nat) (hdev : dev < numof)
    (hsp : speedParams speed = some (h, l, hd, su))
    (hp1 : 1 ≤ p) (hp15 : p ≤ 15) (hok : ok clk h l hd su p = true) :
    1 ≤ (findPrescAux clk h l hd su 15 1).getD 16
    ∧ (findPrescAux clk h l hd su 15 1).getD 16 ≤ 15
    ∧ ok clk h l hd su ((findPrescAux clk h l hd su 15 1).getD 16) = true
    ∧ (∀ s, 1 ≤ s → s < (findPrescAux clk h l hd su 15 1).getD 16 →
        ok clk h l hd su s = false)
    ∧ (i2c_init_master dev numof speed clk r).1 = 0
    ∧ ((i2c_init_master dev numof speed clk r).2).TIMINGR
        = timingOf clk h l hd su ((findPrescAux clk h l hd su 15 1).getD 16)
    ∧ findPrescAux 8000000 4000 4700 500 1250 15 1 = some 1
    ∧ (i2c_init_master 0 1 Speed.normal 8000000 ⟨0, 0, 0, 0⟩).1 = 0
    ∧ ((i2c_init_master 0 1 Speed.normal 8000000 ⟨0, 0, 0, 0⟩).2).TIMINGR
        = timingOf 8000000 4000 4700 500 1250 1 := by
  have hs := fpa_isSome clk h l hd su 15 1 p hp1 (by omega) hok
  obtain ⟨q, hq⟩ := Option.isSome_iff_exists.mp hs
  obtain ⟨hokq, h1q, h2q, hminq⟩ := fpa_spec clk h l hd su 15 1 q hq
  rw [init_master_eq dev numof clk speed h l hd su r hdev hsp,
    timing_some clk h l hd su _ q hq, hq]
  simp only [Option.getD_some]
  exact ⟨h1q, by omega, hokq, fun s a b => hminq s a b, trivial, rfl,
    by decide, by decide, by decide⟩

/-- C4 (witness): the theorem at bus 0 of 1, normal speed, 8 MHz clock
and candidate prescaler 1. -/
theorem init_master_accepts_least_prescaler_witness :
    (0 : Nat) < 1
    ∧ speedParams Speed.normal = some (4000, 4700, 500, 1250)
    ∧ ok 8000000 4000 4700 500 1250 1 = true
    ∧ findPrescAux 8000000 4000 4700 500 1250 15 1 = some 1
    ∧ (i2c_init_master 0 1 Speed.normal 8000000 ⟨0, 0, 0, 0⟩).1 = 0 := by
  have H := init_master_accepts_least_prescaler 0 1 8000000 Speed.normal
    4000 4700 500 1250 ⟨0, 0, 0, 0⟩ 1 (by decide) rfl (by decide) (by decide) (by decide)
  exact ⟨by decide, rfl, by decide, H.2.2.2.2.2.2.1, H.2.2.2.2.2.2.2.1⟩

/-- C5: for every valid bus id and length N of at least 3, when the
start phase succeeds (status 0) the default read path stores exactly N
stream bytes in issuance order at buffer positions 0..N-1, the final
three of them after the byte-transfer-complete observation, and
returns N. -/
theorem read_bytes_n_delivers_in_order (dev numof address : Nat) (s : Nat → Nat)
    (L : Int) (hdev : dev < numof) (hL : 3 ≤ L) :
    (i2c_read_bytes dev numof address 0 s L).1 = L
    ∧ writesOf (i2c_read_bytes dev numof address 0 s L).2
        = (List.range L.toNat).map (fun k => (k, s k))
    ∧ writesOf (((i2c_read_bytes dev numof address 0 s L).2).dropWhile
        (fun e => !(isBtfWait e)))
      = [(L.toNat - 3, s (L.toNat - 3)), (L.toNat - 2, s (L.toNat - 2)),
         (L.toNat - 1, s (L.toNat - 1))] := by
  have hred : i2c_read_bytes dev numof address 0 s L = (L, readN_tr address s L) := by
    unfold i2c_read_bytes
    rw [if_neg (by omega : ¬ (numof ≤ dev)), if_neg (by omega : ¬ (L = 1)),
      if_neg (by omega : ¬ (L = 2)), if_neg (by omega : ¬ ((0 : Int) < 0))]
  rw [hred]
  have hm : L.toNat = (L - 3).toNat + 3 := by omega
  have hw : writesOf (readN_tr address s L)
      = (List.range (L - 3).toNat).map (fun k => (k, s k))
        ++ [((L - 3).toNat, s ((L - 3).toNat)), ((L - 3).toNat + 1, s ((L - 3).toNat + 1)),
            ((L - 3).toNat + 2, s ((L - 3).toNat + 2))] := by
    unfold readN_tr
    rw [writesOf_append, writesOf_append, writesOf_append, writesOf_loopN]
    simp [start_ok_tr, clear_addr_tr, tail3, writesOf]
  have hr : (List.range ((L - 3).toNat + 3)).map (fun k => (k, s k))
      = (List.range (L - 3).toNat).map (fun k => (k, s k))
        ++ [((L - 3).toNat, s ((L - 3).toNat)), ((L - 3).toNat + 1, s ((L - 3).toNat + 1)),
            ((L - 3).toNat + 2, s ((L - 3).toNat + 2))] := by
    rw [show (L - 3).toNat + 3 = ((L - 3).toNat + 2) + 1 from rfl, List.range_succ,
      show (L - 3).toNat + 2 = ((L - 3).toNat + 1) + 1 from rfl, List.range_succ,
      List.range_succ]
    simp
  have hstart : ((start_ok_tr address I2C_FLAG_READ).all fun e => !(isBtfWait e)) = true := by
    simp [start_ok_tr, isBtfWait, I2C_SR1_SB, I2C_SR1_ADDR, I2C_SR1_BTF]
  have hclear : (clear_addr_tr.all fun e => !(isBtfWait e)) = true := by decide
  have hdrop : (readN_tr address s L).dropWhile (fun e => !(isBtfWait e))
      = tail3 s (L - 3).toNat := by
    unfold readN_tr
    rw [List.append_assoc, List.append_assoc,
      dropWhile_append_all _ _ _ hstart,
      dropWhile_append_all _ _ _ hclear,
      dropWhile_append_all _ _ _ (loopN_no_btf s (L - 3).toNat 0)]
    simp [tail3, List.dropWhile_cons, isBtfWait, I2C_SR1_BTF]
  refine ⟨rfl, ?_, ?_⟩
  · show writesOf (readN_tr address s L) = _
    rw [hw, hm, hr]
  · show writesOf ((readN_tr address s L).dropWhile (fun e => !(isBtfWait e))) = _
    rw [hdrop]
    have e1 : (L - 3).toNat = L.toNat - 3 := by omega
    have f2 : L.toNat - 3 + 1 = L.toNat - 2 := by omega
    have f3 : L.toNat - 3 + 2 = L.toNat - 1 := by omega
    simp [tail3, writesOf, e1, f2, f3]

/-- C5 (witness): a 6-byte read at address 0x1D from a peer that
supplies the incrementing bytes 0..5 returns 6 and stores 0..5 at
positions 0..5. -/
theorem read_bytes_n_delivers_in_order_witness :
    (0 : Nat) < 1 ∧ (3 : Int) ≤ 6
    ∧ (i2c_read_bytes 0 1 29 0 (fun k => k) 6).1 = 6
    ∧ writesOf (i2c_read_bytes 0 1 29 0 (fun k => k) 6).2
        = [(0, 0), (1, 1), (2, 2), (3, 3), (4, 4), (5, 5)] := by
  have H := read_bytes_n_delivers_in_order 0 1 29 (fun k => k) 6 (by decide) (by decide)
  exact ⟨by decide, by decide, H.1, by rw [H.2.1]; rfl⟩

/-- C6: in the successful 2-byte read trace, no STOP assertion occurs
before the byte-transfer-complete flag is observed (and both events do
occur), and the final CR1 state has the position-mode bit (11) clear
and the ACK bit (10) set again, from any starting CR1 value. -/
theorem read2_stop_after_btf_restores_state (c address : Nat) (s : Nat → Nat) :
    ((read2_tr address s).takeWhile (fun e => !(isBtfWait e))).all
        (fun e => !(isStopAssert e)) = true
    ∧ (read2_tr address s).any isBtfWait = true
    ∧ (read2_tr address s).any isStopAssert = true
    ∧ Nat.testBit (applyTrace c (read2_tr address s)) 11 = false
    ∧ Nat.testBit (applyTrace c (read2_tr address s)) 10 = true := by
  refine ⟨?_, ?_, ?_, ?_, ?_⟩
  · simp [read2_tr, start_ok_tr, clear_addr_tr, isBtfWait, isStopAssert,
      I2C_CR1_START, I2C_CR1_STOP, I2C_CR1_ACK, I2C_CR1_POS,
      I2C_SR1_SB, I2C_SR1_ADDR, I2C_SR1_BTF, I2C_SR1_RXNE, I2C_FLAG_READ]
    decide
  · simp [read2_tr, start_ok_tr, clear_addr_tr, isBtfWait,
      I2C_SR1_SB, I2C_SR1_ADDR, I2C_SR1_BTF, I2C_SR1_RXNE]
  · simp [read2_tr, start_ok_tr, clear_addr_tr, isStopAssert,
      I2C_CR1_START, I2C_CR1_STOP, I2C_CR1_ACK, I2C_CR1_POS]
  · simp [read2_tr, start_ok_tr, clear_addr_tr, applyTrace, applyEv, cnot,
      I2C_CR1_START, I2C_CR1_STOP, I2C_CR1_ACK, I2C_CR1_POS]
    exact ⟨fun _ _ => by decide, by decide⟩
  · simp [read2_tr, start_ok_tr, clear_addr_tr, applyTrace, applyEv, cnot,
      I2C_CR1_START, I2C_CR1_STOP, I2C_CR1_ACK, I2C_CR1_POS]
    exact Or.inr (by decide)

/-- C6 (witness): the trace facts and the final CR1 bits at address
0x1D, incrementing peer bytes, starting CR1 value 1025. -/
theorem read2_stop_after_btf_restores_state_witness :
    Nat.testBit (applyTrace 1025 (read2_tr 29 (fun k => k))) 11 = false
    ∧ Nat.testBit (applyTrace 1025 (read2_tr 29 (fun k => k))) 10 = true
    ∧ (read2_tr 29 (fun k => k)).any isBtfWait = true := by
  have H := read2_stop_after_btf_restores_state 1025 29 (fun k => k)
  exact ⟨H.2.2.2.1, H.2.2.2.2, H.2.1⟩

/-- C7: in the successful 1-byte read trace, the ACK-clear occurs, and
every event strictly before the first ACK-clear is neither the start of
the address-pending clear sequence nor a STOP assertion; both of those
events also occur (later). -/
theorem read1_nack_before_stop (address : Nat) (s : Nat → Nat) :
    ((read1_tr address s).takeWhile (fun e => !(isAckClear e))).all
        (fun e => !(isAddrClear e) && !(isStopAssert e)) = true
    ∧ (read1_tr address s).any isAckClear = true
    ∧ (read1_tr address s).any isAddrClear = true
    ∧ (read1_tr address s).any isStopAssert = true := by
  refine ⟨?_, ?_, ?_, ?_⟩ <;>
    simp [read1_tr, start_ok_tr, clear_addr_tr, isAckClear, isAddrClear,
      isStopAssert, I2C_CR1_START, I2C_CR1_STOP, I2C_CR1_ACK, I2C_CR1_POS,
      I2C_SR1_SB, I2C_SR1_ADDR, I2C_SR1_BTF, I2C_SR1_RXNE, I2C_FLAG_READ] <;>
    decide

/-- C7 (witness): the trace facts at address 0x1D with incrementing
peer bytes. -/
theorem read1_nack_before_stop_witness :
    ((read1_tr 29 (fun k => k)).takeWhile (fun e => !(isAckClear e))).all
        (fun e => !(isAddrClear e) && !(isStopAssert e)) = true
    ∧ (read1_tr 29 (fun k => k)).any isStopAssert = true := by
  have H := read1_nack_before_stop 29 (fun k => k)
  exact ⟨H.1, H.2.2.2⟩

/-- C8: for each of the seven hardware fault bits set alone in the
status register during the address-acknowledgment wait, the interrupt
handler records the corresponding distinct negative code (overrun -1,
NACK -2, arbitration-lost -3, bus error -4, PEC error -5, timeout -6,
SMBus alert -7, pairwise distinct), the ADDR wait then performs exactly
one bus reset and delivers -1, and a read call in flight with that
start result returns a negative status. -/
theorem irq_fault_codes_and_reset (b : Nat) (hb : b ∈ sevenFaults) :
    (_i2c_irq b 0).1 = faultCodeOf b
    ∧ (_i2c_irq b 0).1 < 0
    ∧ addrPhase (fun _ => false) (fun _ => faultCodeOf b) 1 0 = some (-1, 1)
    ∧ (i2c_read_bytes 0 1 0 (-1) (fun x => x) 3).1 = -1
    ∧ sevenFaults.map faultCodeOf = [-1, -2, -3, -4, -5, -6, -7]
    ∧ List.Nodup (sevenFaults.map faultCodeOf) := by
  fin_cases hb <;>
    exact ⟨by decide, by decide, by decide, by decide, by decide, by decide⟩

/-- C8 (witness): the theorem at the arbitration-lost fault bit. -/
theorem irq_fault_codes_and_reset_witness :
    I2C_ISR_ARLO ∈ sevenFaults
    ∧ (_i2c_irq I2C_ISR_ARLO 0).1 = faultCodeOf I2C_ISR_ARLO
    ∧ addrPhase (fun _ => false) (fun _ => faultCodeOf I2C_ISR_ARLO) 1 0 = some (-1, 1) := by
  have H := irq_fault_codes_and_reset I2C_ISR_ARLO (by decide)
  exact ⟨by decide, H.1, H.2.2.1⟩

/-- C9: for every valid bus id and every length at most 0 (zero or
negative, hence neither 1 nor 2), i2c_read_bytes with a successful
start takes the default (N at least 3) path, stores three stream bytes
at buffer positions 0, 1, 2 although fewer were requested, and returns
the requested length unchanged. -/
theorem read_bytes_degenerate_length_writes_three (dev numof address : Nat)
    (s : Nat → Nat) (L : Int) (hdev : dev < numof) (hL : L ≤ 0) :
    (i2c_read_bytes dev numof address 0 s L).1 = L
    ∧ (i2c_read_bytes dev numof address 0 s L).2 = readN_tr address s L
    ∧ writesOf (i2c_read_bytes dev numof address 0 s L).2
        = [(0, s 0), (1, s 1), (2, s 2)] := by
  have hred : i2c_read_bytes dev numof address 0 s L = (L, readN_tr address s L) := by
    unfold i2c_read_bytes
    rw [if_neg (by omega : ¬ (numof ≤ dev)), if_neg (by omega : ¬ (L = 1)),
      if_neg (by omega : ¬ (L = 2)), if_neg (by omega : ¬ ((0 : Int) < 0))]
  rw [hred]
  have hm : (L - 3).toNat = 0 := by omega
  refine ⟨rfl, rfl, ?_⟩
  show writesOf (readN_tr address s L) = _
  unfold readN_tr
  rw [hm, writesOf_append, writesOf_append, writesOf_append]
  simp [start_ok_tr, clear_addr_tr, loopN, tail3, writesOf]

/-- C9 (witness): a 0-byte read with a successful start still stores
three peer bytes at positions 0, 1, 2 and returns 0. -/
theorem read_bytes_degenerate_length_writes_three_witness :
    (0 : Nat) < 1 ∧ (0 : Int) ≤ 0
    ∧ (i2c_read_bytes 0 1 29 0 (fun k => k) 0).1 = 0
    ∧ writesOf (i2c_read_bytes 0 1 29 0 (fun k => k) 0).2 = [(0, 0), (1, 1), (2, 2)] := by
  have H := read_bytes_degenerate_length_writes_three 0 1 29 (fun k => k) 0
    (by decide) (by decide)
  exact ⟨by decide, by decide, H.1, by rw [H.2.2]⟩

/-- C10: whenever the ADDR wait of _start ends with a negative status
(a fault was detected), that status is exactly -1 no matter which of
the seven distinct codes the interrupt handler stored in the fault
variable, and both i2c_read_bytes and i2c_write_bytes return exactly
that -1 to the caller. -/
theorem start_fault_return_minus_one (addrFlag : Nat → Bool) (err : Nat → Int)
    (fuel j dev numof address : Nat) (s d : Nat → Nat) (L : Int) (r : Int) (n : Nat)
    (hdev : dev < numof)
    (hres : addrPhase addrFlag err fuel j = some (r, n)) (hneg : r < 0) :
    r = -1
    ∧ (i2c_read_bytes dev numof address r s L).1 = -1
    ∧ (i2c_write_bytes dev numof address r d L).1 = -1 := by
  have hr : r = -1 := by
    rcases addrPhase_some addrFlag err fuel j r n hres with hc | ⟨hc, _⟩ <;> omega
  subst hr
  refine ⟨rfl, ?_, ?_⟩
  · unfold i2c_read_bytes
    rw [if_neg (by omega : ¬ (numof ≤ dev))]
    split_ifs <;> rfl
  · unfold i2c_write_bytes
    rw [if_neg (by omega : ¬ (numof ≤ dev)), if_pos (by omega : (-1 : Int) < 0)]

/-- C10 (witness): with the fault variable holding -5 (PEC error) and
the ADDR flag never set, the wait delivers -1 after one reset, and a
4-byte read and write in flight both return -1. -/
theorem start_fault_return_minus_one_witness :
    (0 : Nat) < 1
    ∧ addrPhase (fun _ => false) (fun _ => -5) 1 0 = some (-1, 1)
    ∧ (-1 : Int) < 0
    ∧ (i2c_read_bytes 0 1 29 (-1) (fun k => k) 4).1 = -1
    ∧ (i2c_write_bytes 0 1 29 (-1) (fun k => k) 4).1 = -1 := by
  have H := start_fault_return_minus_one (fun _ => false) (fun _ => -5) 1 0 0 1 29
    (fun k => k) (fun k => k) 4 (-1) 1 (by decide) (by decide) (by decide)
  exact ⟨by decide, by decide, by decide, H.2.1, H.2.2⟩

end Stm32I2c
